import Mathlib

/-!
Verification of the resilience layer: circuit breaker
(src/rectif/circuit_breaker.py), retry handler
(src/production/reliability/retry_handler.py), sliding-window rate limiter
(src/production/security/rate_limiter.py) and TTL cache
(src/production/scalability/cache_manager.py).

Times are modelled as integers (seconds); Python floats used only as
delays/timestamps are modelled as rationals/integers where the claims are
algebraic.
-/

/-! ## Circuit breaker (src/rectif/circuit_breaker.py) -/

/-- The three states of `CircuitState` in the source.  The Python `OPEN`
state is called `opened` here because `open` is a Lean keyword. -/
inductive CircuitState where
  | closed
  | opened
  | halfOpen
deriving DecidableEq, Repr

/-- State of a `CircuitBreaker` instance: configuration
(`failure_threshold`, `recovery_timeout`) plus the mutable attributes
(`failure_count`, `last_failure_time`, `state`, and the statistics
counters).  `recent_failures` (a logging deque) and `name` are omitted:
no claim mentions them. -/
structure CircuitBreaker where
  failureThreshold : ℕ
  recoveryTimeout : ℤ
  state : CircuitState
  failureCount : ℕ
  lastFailureTime : Option ℤ
  totalCalls : ℕ
  totalFailures : ℕ
  totalSuccesses : ℕ
deriving DecidableEq, Repr

/-- `CircuitBreaker._should_attempt_reset`: true when no failure was ever
recorded, or when `now - last_failure_time >= recovery_timeout`. -/
def cbShouldAttemptReset (cb : CircuitBreaker) (now : ℤ) : Bool :=
  match cb.lastFailureTime with
  | none => true
  | some t => decide (cb.recoveryTimeout ≤ now - t)

/-- `CircuitBreaker.__enter__`: in the `opened` state, either transition to
`halfOpen` (recovery timeout elapsed) or raise `CircuitBreakerError`,
modelled by `Except.error ()`; in any other state pass through unchanged.
An `Except.error` result means the protected operation is never invoked
and `__exit__` never runs. -/
def cbEnter (cb : CircuitBreaker) (now : ℤ) : Except Unit CircuitBreaker :=
  if cb.state = CircuitState.opened then
    if cbShouldAttemptReset cb now then
      Except.ok { cb with state := CircuitState.halfOpen }
    else
      Except.error ()
  else
    Except.ok cb

/-- `CircuitBreaker._on_failure`: increment `failure_count` and
`total_failures`, set `last_failure_time := now`; a `halfOpen` breaker
re-opens, otherwise the breaker opens when
`failure_count >= failure_threshold`. -/
def cbOnFailure (cb : CircuitBreaker) (now : ℤ) : CircuitBreaker :=
  let cb1 := { cb with
    failureCount := cb.failureCount + 1
    totalFailures := cb.totalFailures + 1
    lastFailureTime := some now }
  if cb1.state = CircuitState.halfOpen then
    { cb1 with state := CircuitState.opened }
  else if cb1.failureThreshold ≤ cb1.failureCount then
    { cb1 with state := CircuitState.opened }
  else
    cb1

/-- `CircuitBreaker._on_success`: increment `total_successes`; a `halfOpen`
breaker closes with `failure_count := 0`; then the trailing
`if failure_count > 0` block decrements `failure_count`. -/
def cbOnSuccess (cb : CircuitBreaker) : CircuitBreaker :=
  let cb1 := { cb with totalSuccesses := cb.totalSuccesses + 1 }
  let cb2 :=
    if cb1.state = CircuitState.halfOpen then
      { cb1 with failureCount := 0, state := CircuitState.closed }
    else
      cb1
  if 0 < cb2.failureCount then
    { cb2 with failureCount := cb2.failureCount - 1 }
  else
    cb2

/-- `CircuitBreaker.__exit__`: increment `total_calls`; an exception whose
type matches `expected_exception` (`outcome = some true`) records a
failure, a non-matching exception (`some false`) or a normal return
(`none`) records a success.  The returned `Bool` is `__exit__`'s return
value: `false` means a raised exception propagates to the caller. -/
def cbExit (cb : CircuitBreaker) (outcome : Option Bool) (now : ℤ) :
    CircuitBreaker × Bool :=
  let cb1 := { cb with totalCalls := cb.totalCalls + 1 }
  match outcome with
  | some true => (cbOnFailure cb1 now, false)
  | _ => (cbOnSuccess cb1, false)

/-- `CircuitBreaker.reset`: manual reset to `closed` with
`failure_count = 0` and no recorded failure time. -/
def cbReset (cb : CircuitBreaker) : CircuitBreaker :=
  { cb with
    failureCount := 0
    state := CircuitState.closed
    lastFailureTime := none }

/-- One externally triggered operation on a breaker: a call attempt at time
`t` with outcome `o` (as in `cbExit`), or a manual `reset`. -/
inductive BreakerOp where
  | call (t : ℤ) (outcome : Option Bool)
  | reset
deriving DecidableEq, Repr

/-- Effect of one operation: a call runs `__enter__`; a rejected call
(`CircuitBreakerError`) leaves the breaker untouched, an admitted call
runs the body and then `__exit__` with the body's outcome. -/
def cbApplyOp (cb : CircuitBreaker) : BreakerOp → CircuitBreaker
  | BreakerOp.call t o =>
    match cbEnter cb t with
    | Except.error _ => cb
    | Except.ok cb1 => (cbExit cb1 o t).1
  | BreakerOp.reset => cbReset cb

/-- A freshly constructed breaker: `closed`, zero counters. -/
def cbInit (threshold : ℕ) (timeout : ℤ) : CircuitBreaker :=
  { failureThreshold := threshold
    recoveryTimeout := timeout
    state := CircuitState.closed
    failureCount := 0
    lastFailureTime := none
    totalCalls := 0
    totalFailures := 0
    totalSuccesses := 0 }

/-- Sequential execution of a list of operations. -/
def cbRun (cb : CircuitBreaker) (ops : List BreakerOp) : CircuitBreaker :=
  ops.foldl cbApplyOp cb

/-- A breaker state reachable from a fresh breaker by some sequence of
sequential operations. -/
def CBReachable (cb : CircuitBreaker) : Prop :=
  ∃ threshold timeout ops, cb = cbRun (cbInit threshold timeout) ops

/-! ## Retry handler (src/production/reliability/retry_handler.py) -/

/-- The uncapped backoff `base_delay * (exponential_base ** attempt)` of
`RetryHandler.calculate_delay`, over exact rationals. -/
def uncappedDelay (baseDelay expBase : ℚ) (attempt : ℕ) : ℚ :=
  baseDelay * expBase ^ attempt

/-- `RetryHandler.calculate_delay` with `jitter = False`:
`min(base_delay * exponential_base ** attempt, max_delay)`.  With
`jitter = True` the code instead returns `random.uniform(0, delay)` on this
capped value; that sampled value is treated as an arbitrary `r` with
`0 ≤ r ≤ calculateDelay ...` in the theorems. -/
def calculateDelay (baseDelay expBase maxDelay : ℚ) (attempt : ℕ) : ℚ :=
  min (uncappedDelay baseDelay expBase attempt) maxDelay

/-- Outcome of one invocation of the wrapped function inside
`RetryHandler.__call__`'s `try`: a return value, or an exception which
either matches the handler's `exceptions` tuple (`retryable = true`) or
does not (`retryable = false`, so it propagates uncaught). -/
inductive CallOutcome (E A : Type) where
  | ok (a : A)
  | err (e : E) (retryable : Bool)

/-- Result of the whole wrapper: a returned value, `RetryExhausted`
carrying the last caught exception (`none` when `max_attempts = 0` and
the loop body never ran), or an uncaught non-retryable exception.  Each
carries the number of invocations of the wrapped function made. -/
inductive RunResult (E A : Type) where
  | success (a : A) (calls : ℕ)
  | exhausted (last : Option E) (calls : ℕ)
  | fatal (e : E) (calls : ℕ)
deriving DecidableEq, Repr

/-- The `for attempt in range(max_attempts)` loop of
`RetryHandler.__call__`: `attempt` is the index of the next invocation,
the second argument the number of loop iterations left, the third the
`last_exception` variable. -/
def retryGo {E A : Type} (op : ℕ → CallOutcome E A) (attempt : ℕ) :
    ℕ → Option E → RunResult E A
  | 0, last => RunResult.exhausted last attempt
  | remaining + 1, _ =>
    match op attempt with
    | CallOutcome.ok a => RunResult.success a (attempt + 1)
    | CallOutcome.err e true => retryGo op (attempt + 1) remaining (some e)
    | CallOutcome.err e false => RunResult.fatal e (attempt + 1)

/-- `RetryHandler.__call__`'s wrapper applied to an operation whose
behaviour on its `i`-th invocation is `op i`. -/
def retryRun {E A : Type} (op : ℕ → CallOutcome E A) (maxAttempts : ℕ) :
    RunResult E A :=
  retryGo op 0 maxAttempts none

/-! ## Rate limiter (src/production/security/rate_limiter.py) -/

/-- The `info` dict built by `RateLimiter.check_rate_limit`. -/
structure RateInfo where
  limit : ℕ
  remaining : ℤ
  reset : ℤ
  current : ℕ
deriving DecidableEq, Repr

/-- Result of one `check_rate_limit` call: the `(allowed, info)` pair plus
the window's timestamp set after the Redis pipeline ran. -/
structure RateResult where
  allowed : Bool
  info : RateInfo
  store : List ℤ
deriving DecidableEq, Repr

/-- Whether a recorded timestamp survives the pipeline's
`zremrangebyscore(key, 0, window_start)`, which removes exactly the
scores in the closed interval `[0, now - window_seconds]`. -/
def keptInWindow (now windowSeconds ts : ℤ) : Bool :=
  !(decide (0 ≤ ts ∧ ts ≤ now - windowSeconds))

/-- `RateLimiter.check_rate_limit` for one identity's window, with the
window's recorded timestamps passed in as `store` (the Redis sorted set
for the key; member strings are determined by their scores, so the set is
a set of timestamps).  The pipeline removes old entries, counts
(`zcard`), then unconditionally `zadd`s `now`, and `allowed` compares the
pre-add count to `max_requests`.  With `enabled = false` (Redis down) it
admits with `remaining = limit`, touching nothing. -/
def checkRateLimit (enabled : Bool) (store : List ℤ) (now : ℤ)
    (maxRequests : ℕ) (windowSeconds : ℤ) : RateResult :=
  if enabled = false then
    { allowed := true
      info := { limit := maxRequests, remaining := (maxRequests : ℤ),
                reset := 0, current := 0 }
      store := store }
  else
    let purged := store.filter (keptInWindow now windowSeconds)
    let count := purged.length
    let newStore := if now ∈ purged then purged else purged ++ [now]
    { allowed := decide (count < maxRequests)
      info := { limit := maxRequests
                remaining := max 0 ((maxRequests : ℤ) - (count : ℤ) - 1)
                reset := now + windowSeconds
                current := count }
      store := newStore }

/-! ## Cache manager (src/production/scalability/cache_manager.py)

The backing store is Redis `setex`/`get`: `setex key ttl v` stores `v`
with expiry `now + ttl`, and `get` of a key whose expiry has passed
returns nil.  That store is modelled here as a map from keys to
`(value, expiryTime)`; `pickle` round-tripping is the identity on the
stored value. -/

/-- `CacheManager` state: the `enabled` flag, `default_ttl` and the
hit/miss/set counters, plus the backing Redis store. -/
structure CacheManager (V : Type) where
  enabled : Bool
  defaultTtl : ℤ
  hits : ℕ
  misses : ℕ
  sets : ℕ
  store : String → Option (V × ℤ)

/-- `CacheManager.get`: disabled or absent or expired keys count a miss
and return `None`; a live key counts a hit and returns its value. -/
def cacheGet {V : Type} (c : CacheManager V) (key : String) (now : ℤ) :
    Option V × CacheManager V :=
  if c.enabled = false then
    (none, { c with misses := c.misses + 1 })
  else
    match c.store key with
    | none => (none, { c with misses := c.misses + 1 })
    | some (v, expiry) =>
      if now < expiry then
        (some v, { c with hits := c.hits + 1 })
      else
        (none, { c with misses := c.misses + 1 })

/-- `CacheManager.set`: a no-op when disabled; otherwise
`ttl = ttl or self.default_ttl` (Python truthiness: `None` and `0` both
fall back to the default) and `setex key ttl value`, counting a set. -/
def cacheSet {V : Type} (c : CacheManager V) (key : String) (v : V)
    (ttl : Option ℤ) (now : ℤ) : CacheManager V :=
  if c.enabled = false then
    c
  else
    let t :=
      match ttl with
      | some t0 => if t0 = 0 then c.defaultTtl else t0
      | none => c.defaultTtl
    { c with
      store := fun k => if k = key then some (v, now + t) else c.store k
      sets := c.sets + 1 }

/-! ## Auxiliary definitions for the statements -/

/-- The invariant of claim C8, strengthened to cover `halfOpen` (a
half-open breaker keeps the failure count it had when it opened). -/
def cbInv (cb : CircuitBreaker) : Prop :=
  cb.state = CircuitState.opened ∨ cb.state = CircuitState.halfOpen →
  cb.failureThreshold ≤ cb.failureCount

/-- A sequence of call attempts at the given times, each of whose body
raises an exception matching the breaker's `expected_exception`. -/
def failCalls (ts : List ℤ) : List BreakerOp :=
  ts.map fun u => BreakerOp.call u (some true)

/-! ## Helper lemmas -/

theorem cbOnFailure_totalCalls (cb : CircuitBreaker) (t : ℤ) :
    (cbOnFailure cb t).totalCalls = cb.totalCalls := by
  unfold cbOnFailure
  dsimp only
  split
  · rfl
  · split <;> rfl

theorem cbOnSuccess_totalCalls (cb : CircuitBreaker) :
    (cbOnSuccess cb).totalCalls = cb.totalCalls := by
  unfold cbOnSuccess
  dsimp only
  split <;> split <;> rfl

theorem cbExit_totalCalls (cb : CircuitBreaker) (o : Option Bool) (t : ℤ) :
    (cbExit cb o t).1.totalCalls = cb.totalCalls + 1 := by
  unfold cbExit
  match o with
  | some true => simp [cbOnFailure_totalCalls]
  | some false => simp [cbOnSuccess_totalCalls]
  | none => simp [cbOnSuccess_totalCalls]

theorem cbEnter_ok_cases (cb cb1 : CircuitBreaker) (t : ℤ)
    (h : cbEnter cb t = Except.ok cb1) :
    (cb1 = cb ∧ cb.state ≠ CircuitState.opened) ∨
    (cb.state = CircuitState.opened ∧
      cb1 = { cb with state := CircuitState.halfOpen }) := by
  unfold cbEnter at h
  by_cases hs : cb.state = CircuitState.opened
  · rw [if_pos hs] at h
    by_cases hr : cbShouldAttemptReset cb t = true
    · rw [if_pos hr] at h
      right
      exact ⟨hs, (Except.ok.injEq _ _).mp h.symm |>.symm ▸ rfl⟩
    · rw [if_neg hr] at h
      exact absurd h (by simp)
  · rw [if_neg hs] at h
    left
    exact ⟨((Except.ok.injEq _ _).mp h).symm, hs⟩

/-! ## C3: open breaker rejects, then probes after the recovery timeout -/

/-- C3: a breaker in the `opened` state with `last_failure_time = t`
rejects (raises `CircuitBreakerError`, so the protected operation is
never invoked) every call entered while `now - t < recovery_timeout`,
and the first call entered once `now - t >= recovery_timeout` transitions
the breaker to `halfOpen` before the protected operation executes. -/
theorem open_breaker_reject_then_halfopen (cb : CircuitBreaker) (now t : ℤ)
    (hs : cb.state = CircuitState.opened)
    (hl : cb.lastFailureTime = some t) :
    (now - t < cb.recoveryTimeout → cbEnter cb now = Except.error ()) ∧
    (cb.recoveryTimeout ≤ now - t →
      cbEnter cb now = Except.ok { cb with state := CircuitState.halfOpen }) := by
  constructor
  · intro h
    simp [cbEnter, hs, cbShouldAttemptReset, hl]
    omega
  · intro h
    simp [cbEnter, hs, cbShouldAttemptReset, hl, h]

/-- Witness for C3: a concrete open breaker (threshold 3, timeout 60, last
failure at time 100) rejects at time 120 and goes half-open at time 160. -/
theorem open_breaker_reject_then_halfopen_witness :
    cbEnter ⟨3, 60, CircuitState.opened, 3, some 100, 7, 3, 4⟩ 120 =
      Except.error () ∧
    cbEnter ⟨3, 60, CircuitState.opened, 3, some 100, 7, 3, 4⟩ 160 =
      Except.ok ⟨3, 60, CircuitState.halfOpen, 3, some 100, 7, 3, 4⟩ := by
  constructor
  · exact (open_breaker_reject_then_halfopen
      ⟨3, 60, CircuitState.opened, 3, some 100, 7, 3, 4⟩ 120 100 rfl rfl).1
      (by decide)
  · exact (open_breaker_reject_then_halfopen
      ⟨3, 60, CircuitState.opened, 3, some 100, 7, 3, 4⟩ 160 100 rfl rfl).2
      (by decide)

/-! ## C5: leaky-bucket recovery while Closed -/

/-- C5: for a breaker in the `closed` state, recording a success
decrements `failure_count` by exactly 1 when it is positive and leaves it
at 0 otherwise, and recording a failure increments it by exactly 1. -/
theorem closed_breaker_leaky_bucket (cb : CircuitBreaker) (t : ℤ)
    (hs : cb.state = CircuitState.closed) :
    (0 < cb.failureCount →
      (cbOnSuccess cb).failureCount = cb.failureCount - 1) ∧
    (cb.failureCount = 0 → (cbOnSuccess cb).failureCount = 0) ∧
    (cbOnFailure cb t).failureCount = cb.failureCount + 1 := by
  refine ⟨?_, ?_, ?_⟩
  · intro h
    unfold cbOnSuccess
    dsimp only
    simp [hs, h]
  · intro h
    unfold cbOnSuccess
    dsimp only
    simp [hs, h]
  · unfold cbOnFailure
    dsimp only
    split
    · rfl
    · split <;> rfl

/-- Witness for C5: a closed breaker with `failure_count = 2` goes to 1 on
success and to 3 on failure. -/
theorem closed_breaker_leaky_bucket_witness :
    (cbOnSuccess ⟨5, 60, CircuitState.closed, 2, some 0, 9, 4, 5⟩).failureCount
      = 2 - 1 ∧
    (cbOnFailure ⟨5, 60, CircuitState.closed, 2, some 0, 9, 4, 5⟩ 7).failureCount
      = 2 + 1 := by
  constructor
  · exact (closed_breaker_leaky_bucket
      ⟨5, 60, CircuitState.closed, 2, some 0, 9, 4, 5⟩ 7 rfl).1 (by decide)
  · exact (closed_breaker_leaky_bucket
      ⟨5, 60, CircuitState.closed, 2, some 0, 9, 4, 5⟩ 7 rfl).2.2

/-! ## C9: non-matching exceptions are recorded as successes -/

/-- C9 counterexample: a half-open breaker with `failure_count = 2` sees a
non-matching exception; the claim's "failureCount decrements (when
positive)" predicts 1, but `_on_success` resets a half-open breaker's
count to 0. -/
theorem halfopen_nonmatching_success_counterexample :
    (⟨3, 60, CircuitState.halfOpen, 2, some 0, 5, 2, 3⟩ :
      CircuitBreaker).failureCount = 2 ∧
    (cbExit ⟨3, 60, CircuitState.halfOpen, 2, some 0, 5, 2, 3⟩
      (some false) 10).1.failureCount = 0 ∧
    ¬((cbExit ⟨3, 60, CircuitState.halfOpen, 2, some 0, 5, 2, 3⟩
      (some false) 10).1.failureCount = 2 - 1) := by
  decide

/-- C9 amended: an exception not matching `expected_exception` is recorded
as a success and still propagates (`__exit__` returns `False`):
`total_calls` and `total_successes` increment, `total_failures` is
unchanged; a half-open breaker transitions to `closed` with
`failure_count` reset to 0, and in any other state the state is unchanged
and `failure_count` decrements toward 0 (truncated subtraction). -/
theorem cbOnSuccess_state (cb : CircuitBreaker) :
    (cbOnSuccess cb).state =
      if cb.state = CircuitState.halfOpen then CircuitState.closed
      else cb.state := by
  unfold cbOnSuccess
  dsimp only
  by_cases h : cb.state = CircuitState.halfOpen
  · simp [h]
  · simp [h]
    split <;> rfl

theorem cbOnSuccess_failureCount (cb : CircuitBreaker) :
    (cbOnSuccess cb).failureCount =
      if cb.state = CircuitState.halfOpen then 0
      else cb.failureCount - 1 := by
  unfold cbOnSuccess
  dsimp only
  by_cases h : cb.state = CircuitState.halfOpen
  · simp [h]
  · simp [h]
    split
    · rfl
    · dsimp only at *
      omega

theorem cbOnSuccess_totalSuccesses (cb : CircuitBreaker) :
    (cbOnSuccess cb).totalSuccesses = cb.totalSuccesses + 1 := by
  unfold cbOnSuccess
  dsimp only
  split <;> split <;> rfl

theorem cbOnSuccess_totalFailures (cb : CircuitBreaker) :
    (cbOnSuccess cb).totalFailures = cb.totalFailures := by
  unfold cbOnSuccess
  dsimp only
  split <;> split <;> rfl

theorem success_on_nonmatching_exception (cb : CircuitBreaker) (t : ℤ) :
    (cbExit cb (some false) t).2 = false ∧
    (cbExit cb (some false) t).1.totalCalls = cb.totalCalls + 1 ∧
    (cbExit cb (some false) t).1.totalSuccesses = cb.totalSuccesses + 1 ∧
    (cbExit cb (some false) t).1.totalFailures = cb.totalFailures ∧
    (cb.state = CircuitState.halfOpen →
      (cbExit cb (some false) t).1.state = CircuitState.closed ∧
      (cbExit cb (some false) t).1.failureCount = 0) ∧
    (cb.state ≠ CircuitState.halfOpen →
      (cbExit cb (some false) t).1.state = cb.state ∧
      (cbExit cb (some false) t).1.failureCount = cb.failureCount - 1) := by
  have hred : (cbExit cb (some false) t).1 =
      cbOnSuccess { cb with totalCalls := cb.totalCalls + 1 } := rfl
  refine ⟨rfl, cbExit_totalCalls cb (some false) t, ?_, ?_, ?_, ?_⟩
  · rw [hred, cbOnSuccess_totalSuccesses]
  · rw [hred, cbOnSuccess_totalFailures]
  · intro h
    rw [hred, cbOnSuccess_state, cbOnSuccess_failureCount]
    simp [h]
  · intro h
    rw [hred, cbOnSuccess_state, cbOnSuccess_failureCount]
    simp [h]

/-- Witness for C9 (amended): a closed breaker with `failure_count = 3`
keeps its state and drops the count to 2 on a non-matching exception. -/
theorem success_on_nonmatching_exception_witness :
    (cbExit ⟨3, 60, CircuitState.closed, 3, some 0, 5, 2, 3⟩
      (some false) 5).1.failureCount = 3 - 1 :=
  ((success_on_nonmatching_exception
    ⟨3, 60, CircuitState.closed, 3, some 0, 5, 2, 3⟩ 5).2.2.2.2.2
    (by decide)).2

/-! ## C10: a rejected call leaves the breaker untouched -/

/-- C10: a call rejected at entry (state `opened`, recovery timeout not
elapsed, so `CircuitBreakerError` is raised) leaves the breaker's entire
state unchanged; and `total_calls` counts exactly the calls admitted
through `__enter__` (every admitted call adds 1 at `__exit__`). -/
theorem rejected_call_state_unchanged (cb : CircuitBreaker) (now : ℤ)
    (o : Option Bool) (hs : cb.state = CircuitState.opened)
    (hr : cbShouldAttemptReset cb now = false) :
    cbEnter cb now = Except.error () ∧
    cbApplyOp cb (BreakerOp.call now o) = cb ∧
    (∀ (cb2 cb1 : CircuitBreaker) (t : ℤ) (o2 : Option Bool),
      cbEnter cb2 t = Except.ok cb1 →
      (cbExit cb1 o2 t).1.totalCalls = cb2.totalCalls + 1) := by
  have henter : cbEnter cb now = Except.error () := by
    simp [cbEnter, hs, hr]
  refine ⟨henter, ?_, ?_⟩
  · simp [cbApplyOp, henter]
  · intro cb2 cb1 t o2 h
    rcases cbEnter_ok_cases cb2 cb1 t h with ⟨h1, _⟩ | ⟨_, h1⟩ <;>
      rw [cbExit_totalCalls, h1]

/-! ## C8: Open implies the failure count reached the threshold -/

theorem cbInv_onFailure (cb : CircuitBreaker) (t : ℤ) (h : cbInv cb) :
    cbInv (cbOnFailure cb t) := by
  unfold cbInv at *
  unfold cbOnFailure
  dsimp only
  by_cases hs : cb.state = CircuitState.halfOpen
  · rw [if_pos hs]
    intro _
    have := h (Or.inr hs)
    dsimp only
    omega
  · rw [if_neg hs]
    split
    · intro _
      dsimp only at *
      omega
    · intro hor
      dsimp only at *
      rcases hor with h1 | h1
      · have := h (Or.inl h1)
        omega
      · exact absurd h1 hs

theorem cbInv_onSuccess (cb : CircuitBreaker)
    (hnot : cb.state ≠ CircuitState.opened) :
    cbInv (cbOnSuccess cb) := by
  unfold cbInv
  intro hor
  exfalso
  rcases hor with h2 | h2 <;> rw [cbOnSuccess_state] at h2 <;>
    by_cases hh : cb.state = CircuitState.halfOpen
  · rw [if_pos hh] at h2
    exact absurd h2 (by decide)
  · rw [if_neg hh] at h2
    exact absurd h2 hnot
  · rw [if_pos hh] at h2
    exact absurd h2 (by decide)
  · rw [if_neg hh] at h2
    exact absurd h2 hh

theorem cbInv_step (cb : CircuitBreaker) (op : BreakerOp) (h : cbInv cb) :
    cbInv (cbApplyOp cb op) := by
  cases op with
  | reset =>
    unfold cbInv cbApplyOp cbReset
    dsimp only
    intro hor
    rcases hor with h1 | h1 <;> simp at h1
  | call t o =>
    have hgoal : cbApplyOp cb (BreakerOp.call t o) =
        match cbEnter cb t with
        | Except.error _ => cb
        | Except.ok cb1 => (cbExit cb1 o t).1 := rfl
    rw [hgoal]
    cases henter : cbEnter cb t with
    | error e => exact h
    | ok cb1 =>
      have hcase := cbEnter_ok_cases cb cb1 t henter
      have hinv1 : cbInv cb1 := by
        rcases hcase with ⟨heq, _⟩ | ⟨hso, heq⟩
        · rw [heq]; exact h
        · rw [heq]
          unfold cbInv at *
          dsimp only
          intro _
          exact h (Or.inl hso)
      have hnot : cb1.state ≠ CircuitState.opened := by
        rcases hcase with ⟨heq, hne⟩ | ⟨_, heq⟩
        · rw [heq]; exact hne
        · rw [heq]; simp
      have hinv1' : cbInv { cb1 with totalCalls := cb1.totalCalls + 1 } := by
        unfold cbInv at *
        dsimp only
        exact hinv1
      have hnot' :
          ({ cb1 with totalCalls := cb1.totalCalls + 1 } :
            CircuitBreaker).state ≠ CircuitState.opened := hnot
      match o with
      | some true =>
        exact cbInv_onFailure _ t hinv1'
      | some false =>
        exact cbInv_onSuccess _ hnot'
      | none =>
        exact cbInv_onSuccess _ hnot'

theorem cbInv_run (ops : List BreakerOp) :
    ∀ cb : CircuitBreaker, cbInv cb → cbInv (cbRun cb ops) := by
  induction ops with
  | nil => intro cb h; exact h
  | cons op ops ih =>
    intro cb h
    exact ih (cbApplyOp cb op) (cbInv_step cb op h)

/-- C8: in every reachable state of a sequentially used breaker,
`state = opened` implies `failure_threshold ≤ failure_count`; the
invariant is preserved by call entry, success/failure recording and
manual reset. -/
theorem open_breaker_failure_count_invariant (cb : CircuitBreaker)
    (h : CBReachable cb) (hs : cb.state = CircuitState.opened) :
    cb.failureThreshold ≤ cb.failureCount := by
  obtain ⟨th, tm, ops, rfl⟩ := h
  refine cbInv_run ops (cbInit th tm) ?_ (Or.inl hs)
  unfold cbInv cbInit
  intro hor
  rcases hor with h1 | h1 <;> simp at h1

/-- Witness for C8: one failing call on a fresh breaker with threshold 1
makes it open, and the invariant instance holds there. -/
theorem open_breaker_failure_count_invariant_witness :
    (cbRun (cbInit 1 60) [BreakerOp.call 0 (some true)]).failureThreshold ≤
      (cbRun (cbInit 1 60) [BreakerOp.call 0 (some true)]).failureCount :=
  open_breaker_failure_count_invariant _
    ⟨1, 60, [BreakerOp.call 0 (some true)], rfl⟩ (by decide)

/-! ## C2: threshold consecutive failures open the breaker -/

theorem cbStep_fail_closed (cb : CircuitBreaker) (t : ℤ)
    (hs : cb.state = CircuitState.closed) :
    (cbApplyOp cb (BreakerOp.call t (some true))).failureCount
      = cb.failureCount + 1 ∧
    (cbApplyOp cb (BreakerOp.call t (some true))).failureThreshold
      = cb.failureThreshold ∧
    (cbApplyOp cb (BreakerOp.call t (some true))).totalFailures
      = cb.totalFailures + 1 ∧
    (cbApplyOp cb (BreakerOp.call t (some true))).totalCalls
      = cb.totalCalls + 1 ∧
    (cbApplyOp cb (BreakerOp.call t (some true))).lastFailureTime = some t ∧
    (cbApplyOp cb (BreakerOp.call t (some true))).state
      = (if cb.failureThreshold ≤ cb.failureCount + 1 then CircuitState.opened
         else CircuitState.closed) := by
  have henter : cbEnter cb t = Except.ok cb := by
    simp [cbEnter, hs]
  have hred : cbApplyOp cb (BreakerOp.call t (some true)) =
      cbOnFailure { cb with totalCalls := cb.totalCalls + 1 } t := by
    have hgoal : cbApplyOp cb (BreakerOp.call t (some true)) =
        match cbEnter cb t with
        | Except.error _ => cb
        | Except.ok cb1 => (cbExit cb1 (some true) t).1 := rfl
    rw [hgoal, henter]
    rfl
  rw [hred]
  unfold cbOnFailure
  dsimp only
  rw [if_neg (by simp [hs])]
  split
  · exact ⟨rfl, rfl, rfl, rfl, rfl, rfl⟩
  · exact ⟨rfl, rfl, rfl, rfl, rfl, hs⟩

theorem cbRun_failCalls_closed (ts : List ℤ) :
    ∀ cb : CircuitBreaker, cb.state = CircuitState.closed →
    cb.failureCount + ts.length < cb.failureThreshold →
    (cbRun cb (failCalls ts)).state = CircuitState.closed ∧
    (cbRun cb (failCalls ts)).failureCount = cb.failureCount + ts.length ∧
    (cbRun cb (failCalls ts)).failureThreshold = cb.failureThreshold ∧
    (cbRun cb (failCalls ts)).totalFailures
      = cb.totalFailures + ts.length := by
  induction ts with
  | nil =>
    intro cb hs _
    exact ⟨hs, rfl, rfl, rfl⟩
  | cons t ts ih =>
    intro cb hs hlen
    obtain ⟨hfc, hth, htf, htc, hlf, hst⟩ := cbStep_fail_closed cb t hs
    have hsm : (cbApplyOp cb (BreakerOp.call t (some true))).state
        = CircuitState.closed := by
      rw [hst, if_neg (by simp only [List.length_cons] at hlen; omega)]
    have hrun : cbRun cb (failCalls (t :: ts)) =
        cbRun (cbApplyOp cb (BreakerOp.call t (some true))) (failCalls ts) :=
      rfl
    obtain ⟨i1, i2, i3, i4⟩ := ih (cbApplyOp cb (BreakerOp.call t (some true)))
      hsm (by rw [hfc, hth]; simp only [List.length_cons] at hlen; omega)
    rw [hrun]
    refine ⟨i1, ?_, ?_, ?_⟩
    · rw [i2, hfc]
      simp only [List.length_cons]
      omega
    · rw [i3, hth]
    · rw [i4, htf]
      simp only [List.length_cons]
      omega

/-- C2: a breaker in the `closed` state with `failure_count = 0`, after
exactly `failure_threshold` consecutive admitted calls that each record a
matching failure (at times `ts` then `tn`), is `opened` with
`last_failure_time` equal to the time of the last failure; all
`failure_threshold` failures were recorded. -/
theorem breaker_opens_after_threshold_failures (cb : CircuitBreaker)
    (ts : List ℤ) (tn : ℤ) (hs : cb.state = CircuitState.closed)
    (hf : cb.failureCount = 0) (hn : ts.length + 1 = cb.failureThreshold) :
    (cbRun cb (failCalls (ts ++ [tn]))).state = CircuitState.opened ∧
    (cbRun cb (failCalls (ts ++ [tn]))).lastFailureTime = some tn ∧
    (cbRun cb (failCalls (ts ++ [tn]))).failureCount = cb.failureThreshold ∧
    (cbRun cb (failCalls (ts ++ [tn]))).totalFailures
      = cb.totalFailures + cb.failureThreshold := by
  have hsplit : cbRun cb (failCalls (ts ++ [tn])) =
      cbApplyOp (cbRun cb (failCalls ts)) (BreakerOp.call tn (some true)) := by
    unfold failCalls cbRun
    rw [List.map_append, List.foldl_append]
    rfl
  obtain ⟨r1, r2, r3, r4⟩ := cbRun_failCalls_closed ts cb hs (by omega)
  obtain ⟨s1, s2, s3, s4, s5, s6⟩ :=
    cbStep_fail_closed (cbRun cb (failCalls ts)) tn r1
  rw [hsplit]
  refine ⟨?_, s5, ?_, ?_⟩
  · rw [s6, if_pos (by rw [r2, r3]; omega)]
  · rw [s1, r2]
    omega
  · rw [s3, r4]
    omega

/-- Witness for C2: a fresh breaker with threshold 2 opens after failures
at times 5 and 9, with `last_failure_time = 9`. -/
theorem breaker_opens_after_threshold_failures_witness :
    (cbRun (cbInit 2 60) (failCalls ([5] ++ [9]))).state
      = CircuitState.opened ∧
    (cbRun (cbInit 2 60) (failCalls ([5] ++ [9]))).lastFailureTime
      = some 9 :=
  ⟨(breaker_opens_after_threshold_failures (cbInit 2 60) [5] 9
      rfl rfl rfl).1,
   (breaker_opens_after_threshold_failures (cbInit 2 60) [5] 9
      rfl rfl rfl).2.1⟩

/-! ## C4: retry semantics -/

theorem retryGo_success {E A : Type} (op : ℕ → CallOutcome E A) (a : A)
    (e : ℕ → E) :
    ∀ (m attempt remaining : ℕ) (last : Option E), m < remaining →
      (∀ i, attempt ≤ i → i < attempt + m →
        op i = CallOutcome.err (e i) true) →
      op (attempt + m) = CallOutcome.ok a →
      retryGo op attempt remaining last
        = RunResult.success a (attempt + m + 1) := by
  intro m
  induction m with
  | zero =>
    intro attempt remaining last hlt _ hok
    match remaining, hlt with
    | r + 1, _ =>
      unfold retryGo
      rw [show attempt + 0 = attempt from rfl] at hok
      rw [hok]
  | succ m ih =>
    intro attempt remaining last hlt hfail hok
    match remaining, hlt with
    | r + 1, hlt =>
      have h0 : op attempt = CallOutcome.err (e attempt) true :=
        hfail attempt le_rfl (by omega)
      have hstep : retryGo op attempt (r + 1) last
          = retryGo op (attempt + 1) r (some (e attempt)) := by
        simp only [retryGo, h0]
      have hok1 : op (attempt + 1 + m) = CallOutcome.ok a := by
        have harith : attempt + 1 + m = attempt + (m + 1) := by omega
        rw [harith]
        exact hok
      have hrec := ih (attempt + 1) r (some (e attempt)) (by omega)
        (fun i h1 h2 => hfail i (by omega) (by omega)) hok1
      rw [show attempt + 1 + m + 1 = attempt + (m + 1) + 1 by omega] at hrec
      rw [hstep]
      exact hrec

theorem retryGo_exhaust {E A : Type} (op : ℕ → CallOutcome E A)
    (e : ℕ → E) :
    ∀ (remaining attempt : ℕ) (last : Option E), 1 ≤ remaining →
      (∀ i, attempt ≤ i → i < attempt + remaining →
        op i = CallOutcome.err (e i) true) →
      retryGo op attempt remaining last
        = RunResult.exhausted (some (e (attempt + remaining - 1)))
            (attempt + remaining) := by
  intro remaining
  induction remaining with
  | zero => intro attempt last h; omega
  | succ r ih =>
    intro attempt last _ hfail
    have h0 : op attempt = CallOutcome.err (e attempt) true :=
      hfail attempt le_rfl (by omega)
    have hstep : retryGo op attempt (r + 1) last
        = retryGo op (attempt + 1) r (some (e attempt)) := by
      simp only [retryGo, h0]
    rw [hstep]
    cases r with
    | zero =>
      unfold retryGo
      rfl
    | succ r' =>
      have hrec := ih (attempt + 1) (some (e attempt)) (by omega)
        (fun i h1 h2 => hfail i (by omega) (by omega))
      rw [show attempt + 1 + (r' + 1) - 1 = attempt + (r' + 1 + 1) - 1
        by omega] at hrec
      rw [show attempt + 1 + (r' + 1) = attempt + (r' + 1 + 1)
        by omega] at hrec
      exact hrec

/-- C4: for any operation and `max_attempts >= 1`: if the operation fails
with a retryable exception on the first `k < max_attempts` invocations
and then returns `a`, the wrapper returns `a` after exactly `k + 1`
invocations; if every invocation fails with a retryable exception, the
wrapper makes exactly `max_attempts` invocations and raises
`RetryExhausted` whose cause is the failure of the last invocation. -/
theorem retry_success_and_exhaustion {E A : Type}
    (op : ℕ → CallOutcome E A) (n k : ℕ) (a : A) (e : ℕ → E) :
    (k < n → (∀ i, i < k → op i = CallOutcome.err (e i) true) →
      op k = CallOutcome.ok a →
      retryRun op n = RunResult.success a (k + 1)) ∧
    (1 ≤ n → (∀ i, i < n → op i = CallOutcome.err (e i) true) →
      retryRun op n = RunResult.exhausted (some (e (n - 1))) n) := by
  constructor
  · intro h1 h2 h3
    have := retryGo_success op a e k 0 n none h1
      (fun i hi1 hi2 => h2 i (by omega)) (by simpa using h3)
    simpa using this
  · intro h1 h2
    have := retryGo_exhaust op e n 0 none h1
      (fun i hi1 hi2 => h2 i (by omega))
    simpa using this

/-- Witness for C4: an operation failing twice then returning 7 succeeds
with 3 calls under `max_attempts = 3`; an always-failing operation under
`max_attempts = 2` exhausts after 2 calls with the 2nd failure as cause. -/
theorem retry_success_and_exhaustion_witness :
    retryRun
      (fun i => if i < 2 then CallOutcome.err i true else CallOutcome.ok 7)
      3 = RunResult.success 7 3 ∧
    retryRun (fun i : ℕ => (CallOutcome.err i true : CallOutcome ℕ ℕ)) 2
      = RunResult.exhausted (some 1) 2 := by
  constructor
  · exact (retry_success_and_exhaustion
      (fun i => if i < 2 then CallOutcome.err i true else CallOutcome.ok 7)
      3 2 7 (fun i => i)).1 (by omega)
      (by intro i hi; interval_cases i <;> rfl) (by norm_num)
  · exact (retry_success_and_exhaustion
      (fun i : ℕ => (CallOutcome.err i true : CallOutcome ℕ ℕ))
      2 0 0 (fun i => i)).2 (by omega) (fun i _ => rfl)

/-! ## C6: backoff delay algebra -/

/-- C6: with `base_delay >= 0` and `exponential_base > 1` and jitter
disabled, `calculate_delay i = min(base_delay * exponential_base ^ i,
max_delay)`, the delay sequence is non-decreasing in the attempt index
and never exceeds `max_delay`; with jitter enabled the produced delay is
`random.uniform(0, calculate_delay i)`, and any such sample `r` lies in
`[0, base_delay * exponential_base ^ i]`. -/
theorem backoff_delay_properties (baseDelay expBase maxDelay : ℚ) (i : ℕ)
    (hb : 0 ≤ baseDelay) (he : 1 < expBase) :
    calculateDelay baseDelay expBase maxDelay i
      = min (baseDelay * expBase ^ i) maxDelay ∧
    calculateDelay baseDelay expBase maxDelay i
      ≤ calculateDelay baseDelay expBase maxDelay (i + 1) ∧
    calculateDelay baseDelay expBase maxDelay i ≤ maxDelay ∧
    (∀ r : ℚ, 0 ≤ r → r ≤ calculateDelay baseDelay expBase maxDelay i →
      0 ≤ r ∧ r ≤ uncappedDelay baseDelay expBase i) := by
  refine ⟨rfl, ?_, min_le_right _ _, ?_⟩
  · apply min_le_min _ le_rfl
    unfold uncappedDelay
    have h1 : (expBase : ℚ) ^ i ≤ expBase ^ (i + 1) := by
      apply pow_le_pow_right₀ (le_of_lt he)
      omega
    exact mul_le_mul_of_nonneg_left h1 hb
  · intro r hr0 hrle
    exact ⟨hr0, le_trans hrle (min_le_left _ _)⟩

/-- Witness for C6 at `base_delay = 1`, `exponential_base = 2`,
`max_delay = 10`, attempt 0. -/
theorem backoff_delay_properties_witness :
    calculateDelay 1 2 10 0 ≤ calculateDelay 1 2 10 1 :=
  (backoff_delay_properties 1 2 10 0 (by norm_num) (by norm_num)).2.1

/-! ## C7: cache round-trip and TTL expiry -/

/-- C7: with the backing store available (`enabled`), `set(key, v, ttl)`
with `ttl > 0` followed immediately by `get(key)` returns `v`; once `ttl`
has elapsed since the set, `get(key)` behaves as a miss (returns
`None`). -/
theorem cache_set_get_ttl {V : Type} (c : CacheManager V) (key : String)
    (v : V) (ttl now : ℤ) (he : c.enabled = true) (ht : 0 < ttl) :
    (cacheGet (cacheSet c key v (some ttl) now) key now).1 = some v ∧
    ∀ now2 : ℤ, now + ttl ≤ now2 →
      (cacheGet (cacheSet c key v (some ttl) now) key now2).1 = none := by
  have hset : cacheSet c key v (some ttl) now =
      { c with
        store := fun k => if k = key then some (v, now + ttl) else c.store k
        sets := c.sets + 1 } := by
    unfold cacheSet
    rw [if_neg (by rw [he]; simp)]
    dsimp only
    rw [if_neg (by omega)]
  constructor
  · rw [hset]
    unfold cacheGet
    rw [if_neg (by dsimp only; rw [he]; simp)]
    dsimp only
    rw [if_pos rfl]
    dsimp only
    rw [if_pos (by omega)]
  · intro now2 h2
    rw [hset]
    unfold cacheGet
    rw [if_neg (by dsimp only; rw [he]; simp)]
    dsimp only
    rw [if_pos rfl]
    dsimp only
    rw [if_neg (by omega)]

/-- Witness for C7: a fresh enabled cache, key "k", value 42, ttl 5 set at
time 0: an immediate get hits, a get at time 5 misses. -/
theorem cache_set_get_ttl_witness :
    (cacheGet (cacheSet
        (⟨true, 3600, 0, 0, 0, fun _ => none⟩ : CacheManager ℕ)
        "k" 42 (some 5) 0) "k" 0).1 = some 42 ∧
    (cacheGet (cacheSet
        (⟨true, 3600, 0, 0, 0, fun _ => none⟩ : CacheManager ℕ)
        "k" 42 (some 5) 0) "k" 5).1 = none := by
  constructor
  · exact (cache_set_get_ttl ⟨true, 3600, 0, 0, 0, fun _ => none⟩
      "k" 42 5 0 rfl (by norm_num)).1
  · exact (cache_set_get_ttl ⟨true, 3600, 0, 0, 0, fun _ => none⟩
      "k" 42 5 0 rfl (by norm_num)).2 5 (by norm_num)

/-! ## C1: sliding-window rate limiter -/

/-- C1 counterexample: with one recorded timestamp (100) inside the
window (`now = 130`, `w = 60`) and limit `L = 1`, the call is rejected
(`allowed = false`) yet `now` is still recorded in the window: the
pipeline `zadd`s the current timestamp unconditionally, before `allowed`
is computed. -/
theorem rateLimit_records_timestamp_on_reject :
    (checkRateLimit true [100] 130 1 60).allowed = false ∧
    (checkRateLimit true [100] 130 1 60).store = [100, 130] := by
  decide

/-- C1 amended: with the store enabled, `check_rate_limit` purges the
recorded timestamps in `[0, now - w]` (those at or before the window
start), admits exactly when the count of surviving timestamps is below
the limit, and returns `remaining = L - count - 1` on admission and
`remaining = 0` on rejection — but records `now` as a new timestamp in
the window in both cases, also on rejection. -/
theorem rateLimit_check_characterization (store : List ℤ) (now : ℤ)
    (l : ℕ) (w : ℤ) :
    ((checkRateLimit true store now l w).allowed = true ↔
      (store.filter (keptInWindow now w)).length < l) ∧
    now ∈ (checkRateLimit true store now l w).store ∧
    (∀ ts : ℤ, ts ∈ (checkRateLimit true store now l w).store ↔
      ts = now ∨ (ts ∈ store ∧ keptInWindow now w ts = true)) ∧
    (checkRateLimit true store now l w).info.current
      = (store.filter (keptInWindow now w)).length ∧
    (checkRateLimit true store now l w).info.limit = l ∧
    (checkRateLimit true store now l w).info.reset = now + w ∧
    ((store.filter (keptInWindow now w)).length < l →
      (checkRateLimit true store now l w).info.remaining
        = (l : ℤ) - ((store.filter (keptInWindow now w)).length : ℤ) - 1) ∧
    (l ≤ (store.filter (keptInWindow now w)).length →
      (checkRateLimit true store now l w).info.remaining = 0) := by
  have hstore : (checkRateLimit true store now l w).store =
      (if now ∈ store.filter (keptInWindow now w)
       then store.filter (keptInWindow now w)
       else store.filter (keptInWindow now w) ++ [now]) := rfl
  have hallowed : (checkRateLimit true store now l w).allowed =
      decide ((store.filter (keptInWindow now w)).length < l) := rfl
  have hrem : (checkRateLimit true store now l w).info.remaining =
      max 0 ((l : ℤ) - ((store.filter (keptInWindow now w)).length : ℤ) - 1) :=
    rfl
  refine ⟨?_, ?_, ?_, rfl, rfl, rfl, ?_, ?_⟩
  · rw [hallowed]
    exact decide_eq_true_iff
  · rw [hstore]
    split
    · assumption
    · exact List.mem_append_right _ (List.mem_singleton.mpr rfl)
  · intro ts
    rw [hstore]
    split
    · rename_i hmem
      constructor
      · intro hm
        exact Or.inr (by simpa [List.mem_filter] using hm)
      · rintro (rfl | ⟨h1, h2⟩)
        · exact hmem
        · exact List.mem_filter.mpr ⟨h1, h2⟩
    · simp only [List.mem_append, List.mem_singleton, List.mem_filter]
      tauto
  · intro h
    rw [hrem]
    apply max_eq_right
    omega
  · intro h
    rw [hrem]
    apply max_eq_left
    omega

/-- Witness for C1 (amended): one in-window timestamp, limit 5: admitted
with `remaining = 5 - 1 - 1 = 3`, and `now = 130` recorded. -/
theorem rateLimit_check_characterization_witness :
    (checkRateLimit true [100] 130 5 60).info.remaining
      = (5 : ℤ) - (([100] : List ℤ).filter (keptInWindow 130 60)).length - 1 ∧
    (130 : ℤ) ∈ (checkRateLimit true [100] 130 5 60).store := by
  constructor
  · exact (rateLimit_check_characterization [100] 130 5 60).2.2.2.2.2.2.1
      (by decide)
  · exact (rateLimit_check_characterization [100] 130 5 60).2.1

/-- Witness for C10: a concrete open breaker, rejected at time 120 (20s
after the last failure, timeout 60), is returned unchanged. -/
theorem rejected_call_state_unchanged_witness :
    cbEnter ⟨3, 60, CircuitState.opened, 3, some 100, 7, 3, 4⟩ 120
      = Except.error () ∧
    cbApplyOp ⟨3, 60, CircuitState.opened, 3, some 100, 7, 3, 4⟩
        (BreakerOp.call 120 none)
      = ⟨3, 60, CircuitState.opened, 3, some 100, 7, 3, 4⟩ := by
  constructor
  · exact (rejected_call_state_unchanged
      ⟨3, 60, CircuitState.opened, 3, some 100, 7, 3, 4⟩ 120 none
      rfl (by decide)).1
  · exact (rejected_call_state_unchanged
      ⟨3, 60, CircuitState.opened, 3, some 100, 7, 3, 4⟩ 120 none
      rfl (by decide)).2.1
